import Mathlib

/-
Verification of the extraction/classification core of the specql Rust tool
(src/rust/src/main.rs).  The development shallowly embeds:

  * the subset of the syn declaration tree the tool consumes
    (`RsType`, `PathSegment`, `PathArguments`, `GenericArg`, `RsField`,
    `RsFields`, `ItemStruct`, `MacItem`, `Item`),
  * the field type classifier `extract_type_info`,
  * the struct extractor `extract_struct_info` / `extract_field_info`,
  * the attribute scanner `extract_diesel_derives`,
  * the Diesel `table!` DSL parser `parse_diesel_table_tokens` /
    `parse_column_def`, and
  * the `main` processing loop (`processItems`).

Rust strings are modelled as `List Char` (`Str`); Rust byte indices
returned by `find`/`rfind` become character indices, which yields the same
observable slicing behaviour for every index actually produced by `find` on
the same string.  All definitions are computable and structurally
recursive, so concrete runs evaluate by `decide` / `rfl`.
-/

/-- Character-list model of a Rust string slice. -/
abbrev Str := List Char

/-- Character list of a Lean string literal (used to write concrete inputs). -/
def chars (s : String) : Str := s.toList

/-- Unicode White_Space predicate, as used by Rust's `char::is_whitespace`. -/
def rustIsWhitespace (c : Char) : Bool :=
  let n := c.toNat
  (0x09 ≤ n && n ≤ 0x0D) || n == 0x20 || n == 0x85 || n == 0xA0 || n == 0x1680 ||
  (0x2000 ≤ n && n ≤ 0x200A) || n == 0x2028 || n == 0x2029 || n == 0x202F ||
  n == 0x205F || n == 0x3000

/-- Rust `str::trim`: remove leading and trailing whitespace characters. -/
def rustTrim (s : Str) : Str :=
  ((s.dropWhile rustIsWhitespace).reverse.dropWhile rustIsWhitespace).reverse

/-- Rust `str::contains(pat)` for a literal pattern: `pat` occurs as a
contiguous substring of `s`. -/
def containsSub (pat : Str) : Str → Bool
  | [] => pat.isEmpty
  | c :: rest => pat.isPrefixOf (c :: rest) || containsSub pat rest

/-- Rust `str::find(pat)` for a literal pattern: index of the first
occurrence of `pat` in `s`. -/
def findSub? (pat : Str) : Str → Option Nat
  | [] => if pat.isEmpty then some 0 else none
  | c :: rest =>
    if pat.isPrefixOf (c :: rest) then some 0
    else (findSub? pat rest).map (· + 1)

/-- Rust `str::rfind(c)`: index of the last occurrence of a character. -/
def rfindIdx? (p : Char → Bool) (s : Str) : Option Nat :=
  match s.reverse.findIdx? p with
  | some i => some (s.length - 1 - i)
  | none => none

/-- Rust slicing `s[a..b]` for `a ≤ b`.  When `b < a`, Rust panics (this is
reachable at main.rs:269, see `classifyNullable`); the embedding truncates
to the empty slice there instead, so every theorem below whose inputs could
reach that region carries a hypothesis excluding it. -/
def sliceStr (s : Str) (a b : Nat) : Str := (s.drop a).take (b - a)

/-- Rust `str::split(',')`, keeping empty pieces, as the tool relies on. -/
def splitComma : Str → List Str
  | [] => [[]]
  | ',' :: rest => [] :: splitComma rest
  | c :: rest =>
    match splitComma rest with
    | [] => [[c]]
    | piece :: pieces => (c :: piece) :: pieces

/-- Rust `str::split("->")`: split on each non-overlapping, leftmost-first
occurrence of the two-character separator `->`. -/
def splitArrow : Str → List Str
  | [] => [[]]
  | '-' :: '>' :: rest => [] :: splitArrow rest
  | c :: rest =>
    match splitArrow rest with
    | [] => [[c]]
    | piece :: pieces => (c :: piece) :: pieces

mutual
/-- Subset of `syn::Type` consumed by `extract_type_info`: a path type with
its segments, plus the shapes the Rust `match` distinguishes; every other
`syn::Type` constructor is collapsed into `other` exactly as the Rust
wildcard arm does. -/
inductive RsType : Type where
  | path : List PathSegment → RsType
  | array : RsType
  | slice : RsType
  | ptr : RsType
  | reference : RsType
  | tuple : RsType
  | other : RsType

/-- One `syn::PathSegment`: an identifier plus its generic arguments. -/
inductive PathSegment : Type where
  | mk : String → PathArguments → PathSegment

/-- `syn::PathArguments`. -/
inductive PathArguments : Type where
  | noArgs : PathArguments
  | angleBracketed : List GenericArg → PathArguments
  | parenthesized : PathArguments

/-- `syn::GenericArgument`: a type argument, or any of the non-type kinds
(lifetime, const, binding, constraint), which the tool never inspects. -/
inductive GenericArg : Type where
  | typeArg : RsType → GenericArg
  | otherArg : GenericArg
end

/-- Identifier of a path segment (`segment.ident.to_string()`). -/
def PathSegment.ident : PathSegment → String
  | .mk i _ => i

/-- Field type classifier `extract_type_info` from main.rs lines 96-134.
The Rust function returns `Result<(String, bool), String>`; every arm
constructs `Ok`, and the single `?` is on the recursive call. -/
def extract_type_info : RsType → Except String (String × Bool)
  | RsType.path segs =>
    match segs with
    | [PathSegment.mk ident args] =>
      if ident = "Option" then
        match args with
        | PathArguments.angleBracketed [GenericArg.typeArg inner] =>
          match extract_type_info inner with
          | Except.ok (s, _) => Except.ok (s, true)
          | Except.error e => Except.error e
        | _ => Except.ok (ident, false)
      else Except.ok (ident, false)
    | _ =>
      Except.ok (String.intercalate "::" (segs.map PathSegment.ident), false)
  | RsType.array => Except.ok ("Array", false)
  | RsType.slice => Except.ok ("Slice", false)
  | RsType.ptr => Except.ok ("Ptr", false)
  | RsType.reference => Except.ok ("Reference", false)
  | RsType.tuple => Except.ok ("Tuple", false)
  | RsType.other => Except.ok ("Unknown", false)

/-- One `syn::Field`: optional identifier, declared type, attribute nodes
(already rendered to token text, as the tool does immediately). -/
structure RsField where
  ident : Option String
  ty : RsType
  attrs : List Str

/-- `syn::Fields`: the field-shape tag of a struct declaration.  The
payload of the unnamed (tuple) shape is never inspected by the tool. -/
inductive RsFields where
  | named (fields : List RsField)
  | unnamed
  | unit

/-- One `syn::ItemStruct`: name, attributes (rendered), field shape. -/
structure ItemStruct where
  ident : String
  attrs : List Str
  fields : RsFields

/-- Output record `RustField` from main.rs lines 7-13. -/
structure RustField where
  name : String
  field_type : String
  is_optional : Bool
  attributes : List Str
deriving DecidableEq

/-- Output record `RustStruct` from main.rs lines 15-20. -/
structure RustStruct where
  name : String
  fields : List RustField
  attributes : List Str
deriving DecidableEq

/-- Output record `DieselColumn` from main.rs lines 29-34. -/
structure DieselColumn where
  name : Str
  sql_type : Str
  is_nullable : Bool
deriving DecidableEq

/-- Output record `DieselTable` from main.rs lines 22-27. -/
structure DieselTable where
  name : Str
  primary_key : List Str
  columns : List DieselColumn
deriving DecidableEq

/-- Output record `DieselDerive` from main.rs lines 36-41. -/
structure DieselDerive where
  struct_name : String
  derives : List Str
  associations : List Str
deriving DecidableEq

/-- `extract_field_info` from main.rs lines 75-94. -/
def extract_field_info (field : RsField) : Except String RustField :=
  match field.ident with
  | none => Except.error "Unnamed field"
  | some name =>
    match extract_type_info field.ty with
    | Except.error e => Except.error e
    | Except.ok (field_type, is_optional) =>
      Except.ok ⟨name, field_type, is_optional, field.attrs⟩

/-- The named-fields loop inside `extract_struct_info` (main.rs lines
56-63): push each extracted field, stopping at the first failure. -/
def extract_field_list : List RsField → Except String (List RustField)
  | [] => Except.ok []
  | field :: rest =>
    match extract_field_info field with
    | Except.error e => Except.error ("Field error: " ++ e)
    | Except.ok fi =>
      match extract_field_list rest with
      | Except.error e => Except.error e
      | Except.ok fis => Except.ok (fi :: fis)

/-- `extract_struct_info` from main.rs lines 43-73. -/
def extract_struct_info (struct_item : ItemStruct) : Except String RustStruct :=
  match struct_item.fields with
  | RsFields.named named_fields =>
    match extract_field_list named_fields with
    | Except.error e => Except.error e
    | Except.ok fields => Except.ok ⟨struct_item.ident, fields, struct_item.attrs⟩
  | RsFields.unnamed => Except.error "Tuple structs not supported"
  | RsFields.unit => Except.ok ⟨struct_item.ident, [], struct_item.attrs⟩

/-- The fixed ordered checklist of derive markers recognized by
`extract_diesel_derives` (main.rs lines 148-162). -/
def deriveChecklist : List Str :=
  [chars "Queryable", chars "Insertable", chars "AsChangeset",
   chars "Associations", chars "Identifiable"]

/-- Derive markers contributed by one attribute's rendered text
(main.rs lines 146-163): if the derive opening marker is present (with or
without the interior space produced by token rendering), keep every
checklist name that occurs as a substring, in checklist order. -/
def markersOfAttr (attr_str : Str) : List Str :=
  if containsSub (chars "# [derive") attr_str || containsSub (chars "#[derive") attr_str then
    deriveChecklist.filter (fun m => containsSub m attr_str)
  else []

/-- Table names contributed by one attribute's rendered text
(main.rs lines 166-174): text between the first `= "` and the next `"`. -/
def tableNamesOfAttr (attr_str : Str) : List Str :=
  if containsSub (chars "# [table_name") attr_str || containsSub (chars "#[table_name") attr_str then
    match findSub? (chars "= \"") attr_str with
    | some start =>
      match (attr_str.drop (start + 3)).findIdx? (fun c => c == '"') with
      | some stop => [sliceStr attr_str (start + 3) (start + 3 + stop)]
      | none => []
    | none => []
  else []

/-- `extract_diesel_derives` from main.rs lines 136-186: scan every
attribute, concatenating per-attribute marker and table-name findings. -/
def extract_diesel_derives (struct_item : ItemStruct) : Option DieselDerive :=
  let derives := struct_item.attrs.flatMap markersOfAttr
  let associations := struct_item.attrs.flatMap tableNamesOfAttr
  if derives.isEmpty && associations.isEmpty then none
  else some ⟨struct_item.ident, derives, associations⟩

/-- The nullable-detection block of `parse_column_def` (main.rs lines
264-279): given the trimmed type text, produce `(sql_type, is_nullable)`.
Caution: when the type text contains `Nullable` together with both a `<`
and a `>` but its last `>` precedes its first `<`, the Rust slice
`&type_part[start + 1..end]` at main.rs:269 panics and aborts the whole
run, while this embedding (via the truncating `sliceStr`) returns an empty
inner type; theorems about column emission therefore carry hypotheses
restricting them to the non-panic region, where model and program agree. -/
def classifyNullable (type_part : Str) : Str × Bool :=
  if containsSub (chars "Nullable") type_part then
    match type_part.findIdx? (fun c => c == '<') with
    | some start =>
      match rfindIdx? (fun c => c == '>') type_part with
      | some stop => (rustTrim (sliceStr type_part (start + 1) stop), true)
      | none => (type_part, false)
    | none => (type_part, false)
  else (type_part, false)

/-- `parse_column_def` from main.rs lines 257-285: split on `->`, requiring
exactly two parts, trim both, then run nullable detection on the type. -/
def parse_column_def (def_text : Str) : Option (Str × Str × Bool) :=
  match (splitArrow def_text).map rustTrim with
  | [col_name, type_part] =>
    let (sql_type, is_nullable) := classifyNullable type_part
    some (col_name, sql_type, is_nullable)
  | _ => none

/-- `parse_diesel_table_tokens` from main.rs lines 205-255. -/
def parse_diesel_table_tokens (tokens : Str) : Option DieselTable := do
  let content := rustTrim tokens
  let table_name_end ← content.findIdx? rustIsWhitespace
  let table_name := content.take table_name_end
  let pk_start ← content.findIdx? (fun c => c == '(')
  let pk_end ← content.findIdx? (fun c => c == ')')
  if pk_end ≤ pk_start then none
  else do
    let pk_content := sliceStr content (pk_start + 1) pk_end
    let primary_key := ((splitComma pk_content).map rustTrim).filter (fun s => !s.isEmpty)
    let brace_start ← (content.drop pk_end).findIdx? (fun c => c == '\x7b')
    let brace_end ← (content.drop (pk_end + brace_start)).findIdx? (fun c => c == '\x7d')
    let columns_content := sliceStr content (pk_end + brace_start + 1) (pk_end + brace_start + brace_end)
    let columns := (splitComma columns_content).filterMap (fun column_def =>
      let column_def := rustTrim column_def
      if column_def.isEmpty || column_def == chars "\x7d" then none
      else
        (parse_column_def column_def).map
          (fun (col_name, sql_type, is_nullable) => DieselColumn.mk col_name sql_type is_nullable))
    some ⟨table_name, primary_key, columns⟩

/-- One `syn::ItemMacro` as the tool sees it: the invocation path's segment
identifiers and the rendered token text of its body. -/
structure MacItem where
  pathSegments : List String
  tokens : Str

/-- `extract_diesel_table` from main.rs lines 188-203. -/
def extract_diesel_table (mac_item : MacItem) : Option DieselTable :=
  match mac_item.pathSegments.head? with
  | some seg => if seg = "table" then parse_diesel_table_tokens mac_item.tokens else none
  | none => none

/-- One top-level `syn::Item`, with the discriminants `main` distinguishes. -/
inductive Item where
  | structDecl (struct_item : ItemStruct)
  | macDecl (mac_item : MacItem)
  | otherItem

/-- The processing loop of `main` (main.rs lines 304-326): structs are
extracted (first failure aborts the whole run with no output at all, as
`main` prints only after the loop), derives and tables are collected. -/
def processItems : List Item → Except String (List RustStruct × List DieselTable × List DieselDerive)
  | [] => Except.ok ([], [], [])
  | Item.structDecl struct_item :: rest =>
    match extract_struct_info struct_item with
    | Except.error e => Except.error ("Failed to parse struct: " ++ e)
    | Except.ok rust_struct =>
      match processItems rest with
      | Except.error e => Except.error e
      | Except.ok (structs, tables, derives) =>
        Except.ok (rust_struct :: structs, tables,
          match extract_diesel_derives struct_item with
          | some d => d :: derives
          | none => derives)
  | Item.macDecl mac_item :: rest =>
    match processItems rest with
    | Except.error e => Except.error e
    | Except.ok (structs, tables, derives) =>
      Except.ok (structs,
        (match extract_diesel_table mac_item with
         | some t => t :: tables
         | none => tables), derives)
  | Item.otherItem :: rest => processItems rest

/-- The classifier never fails: every arm of the Rust function builds `Ok`. -/
theorem extract_type_info_total (t : RsType) : ∃ p, extract_type_info t = Except.ok p := by
  induction t using extract_type_info.induct with
  | case1 inner s snd heq ih =>
    exact ⟨(s, true), by rw [extract_type_info.eq_def]; simp [heq]⟩
  | case2 inner e heq ih =>
    obtain ⟨p, hp⟩ := ih
    rw [heq] at hp
    exact absurd hp (by simp)
  | case3 args h =>
    refine ⟨("Option", false), ?_⟩
    rw [extract_type_info.eq_def]
    cases args with
    | noArgs => simp
    | parenthesized => simp
    | angleBracketed l =>
      cases l with
      | nil => simp
      | cons a rest =>
        cases rest with
        | cons b rest2 => simp
        | nil =>
          cases a with
          | otherArg => simp
          | typeArg t => exact absurd rfl (h t)
  | case4 ident args hne =>
    refine ⟨(ident, false), ?_⟩
    rw [extract_type_info.eq_def]
    simp [hne]
  | case5 segs h =>
    refine ⟨(String.intercalate "::" (segs.map PathSegment.ident), false), ?_⟩
    rw [extract_type_info.eq_def]
    cases segs with
    | nil => simp
    | cons x xs =>
      cases xs with
      | cons y ys => simp
      | nil =>
        cases x with
        | mk i a => exact absurd rfl (h i a)
  | case6 => exact ⟨_, by rw [extract_type_info.eq_def]⟩
  | case7 => exact ⟨_, by rw [extract_type_info.eq_def]⟩
  | case8 => exact ⟨_, by rw [extract_type_info.eq_def]⟩
  | case9 => exact ⟨_, by rw [extract_type_info.eq_def]⟩
  | case10 => exact ⟨_, by rw [extract_type_info.eq_def]⟩
  | case11 => exact ⟨_, by rw [extract_type_info.eq_def]⟩

/-- Classifying the optional wrapper keeps the inner semantic type and
forces the optional flag. -/
theorem extract_type_info_option_eq (inner : RsType) (s : String) (b : Bool)
    (h : extract_type_info inner = Except.ok (s, b)) :
    extract_type_info (RsType.path [PathSegment.mk "Option"
      (PathArguments.angleBracketed [GenericArg.typeArg inner])]) = Except.ok (s, true) := by
  have hstep : extract_type_info (RsType.path [PathSegment.mk "Option"
      (PathArguments.angleBracketed [GenericArg.typeArg inner])]) =
      match extract_type_info inner with
      | Except.ok (s, _) => Except.ok (s, true)
      | Except.error e => Except.error e := rfl
  rw [hstep, h]

/-- A string with no occurrence of `->` is returned by `splitArrow` as a
single piece. -/
theorem splitArrow_eq_single (s : Str) (h : containsSub (chars "->") s = false) :
    splitArrow s = [s] := by
  induction s using splitArrow.induct with
  | case1 => rfl
  | case2 rest ih =>
    simp [containsSub, chars, List.isPrefixOf] at h
  | case3 c rest hne hnil ih =>
    simp only [containsSub, Bool.or_eq_false_iff] at h
    rw [ih h.2] at hnil
    cases hnil
  | case4 c rest hne piece pieces hsplit ih =>
    simp only [containsSub, Bool.or_eq_false_iff] at h
    rw [ih h.2] at hsplit
    injection hsplit with h1 h2
    subst h1
    subst h2
    rw [splitArrow.eq_def]
    split
    · rename_i heq
      cases heq
    · rename_i rest1 heq
      injection heq with hc hrest
      exact (hne rest1 hc hrest).elim
    · rename_i c1 rest1 hno heq
      injection heq with hc hrest
      subst hc
      subst hrest
      rw [ih h.2]

/-- Splitting `a ++ "->" ++ b` when `a` contains no `->`: the first piece is
exactly `a`. -/
theorem splitArrow_append (a b : Str) (ha : containsSub (chars "->") a = false) :
    splitArrow (a ++ '-' :: '>' :: b) = a :: splitArrow b := by
  induction a with
  | nil => rfl
  | cons c a' ih =>
    simp only [containsSub, Bool.or_eq_false_iff] at ha
    have ih' := ih ha.2
    rw [List.cons_append, splitArrow.eq_def]
    split
    · rename_i heq
      cases heq
    · rename_i rest1 heq
      injection heq with hc hrest
      subst hc
      cases a' with
      | nil =>
        simp only [List.nil_append] at hrest
        injection hrest with hgt _
        cases hgt
      | cons d a'' =>
        simp only [List.cons_append] at hrest
        injection hrest with hd _
        subst hd
        simp [chars, List.isPrefixOf] at ha
    · rename_i c1 rest1 hno heq
      injection heq with hc hrest
      subst hc
      rw [← hrest, ih']

/-- A column segment carrying exactly one `->` (written as the decomposition
`a ++ "->" ++ b` with no `->` inside `a` or `b`) parses to the trimmed name
and the nullable classification of the trimmed type text. -/
theorem parse_column_def_split (a b : Str)
    (ha : containsSub (chars "->") a = false)
    (hb : containsSub (chars "->") b = false) :
    parse_column_def (a ++ chars "->" ++ b) =
      some (rustTrim a, classifyNullable (rustTrim b)) := by
  have harr : chars "->" = ['-', '>'] := rfl
  have happ : a ++ chars "->" ++ b = a ++ '-' :: '>' :: b := by
    rw [harr, List.append_assoc]
    rfl
  rw [parse_column_def, happ, splitArrow_append a b ha, splitArrow_eq_single b hb]
  rfl

/-- C1: on the exact token text `widgets (id) { id -> Int8, name -> Text,
notes -> Nullable<Text> }` the Schema-DSL parser produces the table
`widgets` with primary key `[id]` and the three columns
(`id`,`Int8`,not null), (`name`,`Text`,not null), (`notes`,`Text`,null). -/
theorem c1_widgets_table :
    parse_diesel_table_tokens
      (chars "widgets (id) \x7b id -> Int8, name -> Text, notes -> Nullable<Text> \x7d") =
    some ⟨chars "widgets", [chars "id"],
      [⟨chars "id", chars "Int8", false⟩, ⟨chars "name", chars "Text", false⟩,
       ⟨chars "notes", chars "Text", true⟩]⟩ := by
  decide

/-- C5 counterexample: the segment `a -> b -> c` contains the `->` separator
(three times, hence more than once), yet `parse_column_def` emits no column
at all, because the code demands exactly two split parts. -/
theorem c5_counterexample :
    containsSub (chars "->") (chars "a -> b -> c") = true ∧
      parse_column_def (chars "a -> b -> c") = none := by
  decide

/-- C5 (amended): for every column-body segment containing the `->`
separator exactly once — written as `a ++ "->" ++ b` with no `->` in `a` or
`b` — whose trimmed type text stays clear of the nullable-slice panic
(whenever it contains `Nullable` and has both a `<` and a `>`, its first
`<` precedes its last `>`; otherwise the Rust code panics at main.rs:269
and the run aborts), the parser splits at that occurrence and emits a
column whose name is the trimmed text before the `->` and whose sql_type
and nullable flag are the nullable classification of the trimmed text
after it. -/
theorem c5_single_arrow_split (a b : Str)
    (ha : containsSub (chars "->") a = false)
    (hb : containsSub (chars "->") b = false)
    (hsafe : ∀ i j, containsSub (chars "Nullable") (rustTrim b) = true →
      (rustTrim b).findIdx? (fun c => c == '<') = some i →
      rfindIdx? (fun c => c == '>') (rustTrim b) = some j → i < j) :
    parse_column_def (a ++ chars "->" ++ b) =
      some (rustTrim a, classifyNullable (rustTrim b)) :=
  parse_column_def_split a b ha hb

/-- C5 witness: the amended theorem applied to the concrete segment
`name -> Nullable<Text>`, whose first `<` (index 8 of the trimmed type
text) precedes its last `>` (index 13). -/
theorem c5_single_arrow_split_witness :
    parse_column_def (chars "name " ++ chars "->" ++ chars " Nullable<Text>") =
      some (rustTrim (chars "name "),
        classifyNullable (rustTrim (chars " Nullable<Text>"))) :=
  c5_single_arrow_split (chars "name ") (chars " Nullable<Text>") (by decide) (by decide)
    (by
      intro i j hn h1 h2
      have e1 : (rustTrim (chars " Nullable<Text>")).findIdx? (fun c => c == '<') =
          some 8 := by decide
      have e2 : rfindIdx? (fun c => c == '>') (rustTrim (chars " Nullable<Text>")) =
          some 13 := by decide
      rw [e1] at h1
      rw [e2] at h2
      injection h1 with h1
      injection h2 with h2
      omega)

/-- C8: a column segment whose (trimmed) type text contains the substring
`Nullable` but no `<` character is emitted with `is_nullable = false` and
the raw type text kept verbatim as `sql_type`. -/
theorem c8_nullable_without_angle (a b : Str)
    (ha : containsSub (chars "->") a = false)
    (hb : containsSub (chars "->") b = false)
    (h1 : containsSub (chars "Nullable") (rustTrim b) = true)
    (h2 : (rustTrim b).findIdx? (fun c => c == '<') = none) :
    parse_column_def (a ++ chars "->" ++ b) =
      some (rustTrim a, rustTrim b, false) := by
  rw [parse_column_def_split a b ha hb, classifyNullable, h1, h2]
  simp

/-- C8 witness: the concrete segment `n -> NullableThing` keeps
`NullableThing` verbatim and stays not-null. -/
theorem c8_nullable_without_angle_witness :
    parse_column_def (chars "n " ++ chars "->" ++ chars " NullableThing") =
      some (rustTrim (chars "n "), rustTrim (chars " NullableThing"), false) :=
  c8_nullable_without_angle (chars "n ") (chars " NullableThing")
    (by decide) (by decide) (by decide) (by decide)

/-- C10: a column segment whose (trimmed) type text contains `Nullable` and
a `<` but no `>` at all is still emitted, with `is_nullable = false` and the
raw type text verbatim: the unwrap needs both `<` and `>`. -/
theorem c10_nullable_without_closing_angle (a b : Str)
    (ha : containsSub (chars "->") a = false)
    (hb : containsSub (chars "->") b = false)
    (h1 : containsSub (chars "Nullable") (rustTrim b) = true)
    (i : Nat) (h2 : (rustTrim b).findIdx? (fun c => c == '<') = some i)
    (h3 : rfindIdx? (fun c => c == '>') (rustTrim b) = none) :
    parse_column_def (a ++ chars "->" ++ b) =
      some (rustTrim a, rustTrim b, false) := by
  rw [parse_column_def_split a b ha hb, classifyNullable, h1, h2, h3]
  simp

/-- C10 witness: the concrete segment `n -> Nullable<Thing` is emitted with
`Nullable<Thing` verbatim and stays not-null. -/
theorem c10_nullable_without_closing_angle_witness :
    parse_column_def (chars "n " ++ chars "->" ++ chars " Nullable<Thing") =
      some (rustTrim (chars "n "), rustTrim (chars " Nullable<Thing"), false) :=
  c10_nullable_without_closing_angle (chars "n ") (chars " Nullable<Thing")
    (by decide) (by decide) (by decide) 8 (by decide) (by decide)

/-- C6 counterexample: a struct carrying two `#[derive(Queryable)]`
attributes yields a DeriveRecord whose markers list contains `Queryable`
twice — the collection is not duplicate-free. -/
theorem c6_counterexample :
    extract_diesel_derives
      ⟨"S", [chars "#[derive(Queryable)]", chars "#[derive(Queryable)]"], RsFields.unit⟩ =
      some ⟨"S", [chars "Queryable", chars "Queryable"], []⟩ ∧
    ¬ ([chars "Queryable", chars "Queryable"] : List Str).Nodup := by
  constructor
  · decide
  · decide

/-- C6 (amended): the markers of an emitted DeriveRecord are the
concatenation, over the declaration's attributes, of each attribute's
checklist matches; a single attribute contributes each recognized marker at
most once (its contribution is duplicate-free), but the same marker appears
once per derive-opening attribute that contains it, so the overall list may
contain duplicates. -/
theorem c6_markers_per_attr (s : ItemStruct) (d : DieselDerive)
    (h : extract_diesel_derives s = some d) :
    d.derives = s.attrs.flatMap markersOfAttr ∧
      ∀ attr_str : Str, (markersOfAttr attr_str).Nodup := by
  refine ⟨?_, ?_⟩
  · rw [extract_diesel_derives] at h
    split at h
    · cases h
    · injection h with h
      rw [← h]
  · intro attr_str
    rw [markersOfAttr]
    split
    · exact List.Nodup.filter _ (by decide)
    · exact List.nodup_nil

/-- C6 witness: the amended theorem applied to a struct with one derive
attribute naming two markers. -/
theorem c6_markers_per_attr_witness :
    (DieselDerive.mk "T" [chars "Queryable", chars "Insertable"] []).derives =
      (ItemStruct.mk "T" [chars "#[derive(Queryable, Insertable)]"] RsFields.unit).attrs.flatMap markersOfAttr ∧
      ∀ attr_str : Str, (markersOfAttr attr_str).Nodup :=
  c6_markers_per_attr
    (ItemStruct.mk "T" [chars "#[derive(Queryable, Insertable)]"] RsFields.unit)
    (DieselDerive.mk "T" [chars "Queryable", chars "Insertable"] [])
    (by decide)

/-- C2: classifying a single-segment `Option` reference with exactly one
angle-bracketed type argument returns the inner classification's semantic
type with `is_optional` forced to true, discarding the inner optionality
flag; consequently `Option<Option<T>>` classifies exactly like `Option<T>`. -/
theorem c2_option_unwrap :
    (∀ (inner : RsType) (s : String) (b : Bool),
       extract_type_info inner = Except.ok (s, b) →
       extract_type_info (RsType.path [PathSegment.mk "Option"
         (PathArguments.angleBracketed [GenericArg.typeArg inner])]) =
         Except.ok (s, true)) ∧
    (∀ t : RsType,
       extract_type_info (RsType.path [PathSegment.mk "Option"
         (PathArguments.angleBracketed [GenericArg.typeArg
           (RsType.path [PathSegment.mk "Option"
             (PathArguments.angleBracketed [GenericArg.typeArg t])])])]) =
       extract_type_info (RsType.path [PathSegment.mk "Option"
         (PathArguments.angleBracketed [GenericArg.typeArg t])])) := by
  refine ⟨fun inner s b h => extract_type_info_option_eq inner s b h, fun t => ?_⟩
  obtain ⟨⟨s, b⟩, hp⟩ := extract_type_info_total t
  have h1 := extract_type_info_option_eq t s b hp
  have h2 := extract_type_info_option_eq _ s true h1
  rw [h1, h2]

/-- C2 witness: classifying `Option<i64>` yields `("i64", true)`. -/
theorem c2_option_unwrap_witness :
    extract_type_info (RsType.path [PathSegment.mk "Option"
      (PathArguments.angleBracketed [GenericArg.typeArg
        (RsType.path [PathSegment.mk "i64" PathArguments.noArgs])])]) =
      Except.ok ("i64", true) :=
  c2_option_unwrap.1 (RsType.path [PathSegment.mk "i64" PathArguments.noArgs]) "i64" false rfl

/-- A field with no identifier fails extraction with `Unnamed field`. -/
theorem extract_field_info_of_none (field : RsField) (h : field.ident = none) :
    extract_field_info field = Except.error "Unnamed field" := by
  simp [extract_field_info, h]

/-- A field with an identifier always extracts successfully, keeping the
identifier as the field name and the attributes verbatim. -/
theorem extract_field_info_of_some (field : RsField) (n : String)
    (h : field.ident = some n) :
    ∃ t b, extract_field_info field = Except.ok ⟨n, t, b, field.attrs⟩ := by
  obtain ⟨⟨t, b⟩, hp⟩ := extract_type_info_total field.ty
  exact ⟨t, b, by simp [extract_field_info, h, hp]⟩

/-- The named-fields loop fails exactly when some field lacks a name. -/
theorem extract_field_list_error_iff (fs : List RsField) :
    (∃ e, extract_field_list fs = Except.error e) ↔
      ∃ f ∈ fs, f.ident = none := by
  induction fs with
  | nil => simp [extract_field_list]
  | cons f rest ih =>
    cases hid : f.ident with
    | none =>
      have hf := extract_field_info_of_none f hid
      simp only [extract_field_list, hf]
      constructor
      · intro _
        exact ⟨f, List.mem_cons_self f rest, hid⟩
      · intro _
        exact ⟨_, rfl⟩
    | some n =>
      obtain ⟨t, b, hf⟩ := extract_field_info_of_some f n hid
      simp only [extract_field_list, hf]
      cases hrest : extract_field_list rest with
      | error e =>
        constructor
        · intro _
          obtain ⟨f', hmem, hnone⟩ := ih.1 ⟨e, hrest⟩
          exact ⟨f', List.mem_cons_of_mem f hmem, hnone⟩
        · intro _
          exact ⟨e, rfl⟩
      | ok l =>
        constructor
        · rintro ⟨e, he⟩
          cases he
        · rintro ⟨f', hmem, hnone⟩
          rcases List.mem_cons.1 hmem with h1 | h1
          · subst h1
            rw [hid] at hnone
            cases hnone
          · obtain ⟨e, he⟩ := ih.2 ⟨f', h1, hnone⟩
            rw [hrest] at he
            cases he

/-- C3: extraction of a struct declaration fails exactly when its shape is
positional (tuple) or some field of a named shape lacks a name; unit
declarations and fully named declarations always extract, whatever the
declared field types are. -/
theorem c3_extraction_error_iff (s : ItemStruct) :
    (∃ e, extract_struct_info s = Except.error e) ↔
      (s.fields = RsFields.unnamed ∨
       ∃ fs, s.fields = RsFields.named fs ∧ ∃ f ∈ fs, f.ident = none) := by
  obtain ⟨sid, sattrs, sfields⟩ := s
  cases sfields with
  | named fs =>
    simp only [extract_struct_info]
    cases hfl : extract_field_list fs with
    | error e =>
      simp only [hfl]
      constructor
      · intro _
        obtain ⟨f, hmem, hnone⟩ := (extract_field_list_error_iff fs).1 ⟨e, hfl⟩
        exact Or.inr ⟨fs, rfl, f, hmem, hnone⟩
      · intro _
        exact ⟨e, rfl⟩
    | ok l =>
      simp only [hfl]
      constructor
      · rintro ⟨e, he⟩
        cases he
      · rintro (h | ⟨fs', hfs', f, hmem, hnone⟩)
        · cases h
        · injection hfs' with hfs'
          subst hfs'
          obtain ⟨e, he⟩ := (extract_field_list_error_iff fs).2 ⟨f, hmem, hnone⟩
          rw [hfl] at he
          cases he
  | unnamed =>
    simp [extract_struct_info]
  | unit =>
    simp [extract_struct_info]

/-- Successful field extraction preserves the declared identifiers, in
order: the extracted names (wrapped in `some`) are the input idents. -/
theorem extract_field_list_names (fs : List RsField) (l : List RustField)
    (h : extract_field_list fs = Except.ok l) :
    l.map (fun fr => some fr.name) = fs.map RsField.ident := by
  induction fs generalizing l with
  | nil =>
    simp only [extract_field_list] at h
    injection h with h
    subst h
    rfl
  | cons f rest ih =>
    cases hid : f.ident with
    | none =>
      simp only [extract_field_list, extract_field_info_of_none f hid] at h
      exact Except.noConfusion h
    | some n =>
      obtain ⟨t, b, hf⟩ := extract_field_info_of_some f n hid
      simp only [extract_field_list, hf] at h
      cases hrest : extract_field_list rest with
      | error e =>
        rw [hrest] at h
        cases h
      | ok l' =>
        rw [hrest] at h
        injection h with h
        subst h
        simp [ih l' hrest, hid]

/-- C7 counterexample: a declaration with two fields both named `x`
extracts successfully into a TypeRecord whose field names are not pairwise
distinct. -/
theorem c7_counterexample :
    ∃ r, extract_struct_info
      ⟨"S", [], RsFields.named
        [⟨some "x", RsType.path [PathSegment.mk "u8" PathArguments.noArgs], []⟩,
         ⟨some "x", RsType.path [PathSegment.mk "u8" PathArguments.noArgs], []⟩]⟩ =
      Except.ok r ∧ ¬ (r.fields.map RustField.name).Nodup :=
  ⟨⟨"S", [⟨"x", "u8", false, []⟩, ⟨"x", "u8", false, []⟩], []⟩, rfl, by decide⟩

/-- C7 (amended): for every TypeRecord produced by extraction from a
declaration whose named field nodes carry pairwise-distinct identifiers,
none of them the empty string, every FieldRecord.name is non-empty and the
field names are pairwise distinct; extraction itself neither deduplicates
nor validates the names. -/
theorem c7_field_names (s : ItemStruct) (r : RustStruct)
    (h : extract_struct_info s = Except.ok r)
    (hnames : ∀ fs, s.fields = RsFields.named fs →
      (fs.map RsField.ident).Nodup ∧ ∀ f ∈ fs, f.ident ≠ some "") :
    (∀ fr ∈ r.fields, fr.name ≠ "") ∧ (r.fields.map RustField.name).Nodup := by
  obtain ⟨sid, sattrs, sfields⟩ := s
  cases sfields with
  | named fs =>
    simp only [extract_struct_info] at h
    cases hfl : extract_field_list fs with
    | error e =>
      rw [hfl] at h
      cases h
    | ok l =>
      rw [hfl] at h
      injection h with h
      subst h
      have hmap := extract_field_list_names fs l hfl
      obtain ⟨hnd, hne⟩ := hnames fs rfl
      constructor
      · intro fr hfr heq
        have hmem : some fr.name ∈ fs.map RsField.ident := by
          rw [← hmap]
          exact List.mem_map_of_mem _ hfr
        obtain ⟨f, hf, hfid⟩ := List.mem_map.1 hmem
        exact hne f hf (by rw [hfid, heq])
      · have : ((l.map RustField.name).map some).Nodup := by
          rw [List.map_map]
          rw [show (some ∘ RustField.name) = (fun fr => some fr.name) from rfl]
          rw [hmap]
          exact hnd
        exact List.Nodup.of_map some this
  | unnamed =>
    simp [extract_struct_info] at h
  | unit =>
    simp only [extract_struct_info] at h
    injection h with h
    subst h
    exact ⟨(by intro fr hfr; cases hfr), List.nodup_nil⟩

/-- C7 witness: the amended theorem applied to a declaration with the two
distinct non-empty field names `id` and `name`. -/
theorem c7_field_names_witness :
    (∀ fr ∈ (RustStruct.mk "P" [⟨"id", "i64", false, []⟩, ⟨"name", "String", false, []⟩] []).fields,
       fr.name ≠ "") ∧
    ((RustStruct.mk "P" [⟨"id", "i64", false, []⟩, ⟨"name", "String", false, []⟩] []).fields.map
       RustField.name).Nodup :=
  c7_field_names
    ⟨"P", [], RsFields.named
      [⟨some "id", RsType.path [PathSegment.mk "i64" PathArguments.noArgs], []⟩,
       ⟨some "name", RsType.path [PathSegment.mk "String" PathArguments.noArgs], []⟩]⟩
    (RustStruct.mk "P" [⟨"id", "i64", false, []⟩, ⟨"name", "String", false, []⟩] [])
    rfl
    (by
      intro fs hfs
      cases hfs
      exact ⟨by decide, by decide⟩)

/-- C4: if any declaration in the input sequence is a record-like
declaration with a positional-only (tuple) field shape, the whole run
aborts with an error and produces no output collections at all — results
from declarations before or after the failing one included. -/
theorem c4_positional_aborts_run (items : List Item)
    (h : ∃ s, Item.structDecl s ∈ items ∧ s.fields = RsFields.unnamed) :
    ∃ e, processItems items = Except.error e := by
  induction items with
  | nil =>
    obtain ⟨s, hmem, _⟩ := h
    cases hmem
  | cons it rest ih =>
    obtain ⟨s, hmem, hsh⟩ := h
    rcases List.mem_cons.1 hmem with h1 | h1
    · subst h1
      have : extract_struct_info s = Except.error "Tuple structs not supported" := by
        rw [extract_struct_info.eq_def, hsh]
      exact ⟨_, by rw [processItems, this]⟩
    · obtain ⟨e, he⟩ := ih ⟨s, h1, hsh⟩
      cases it with
      | structDecl s' =>
        cases hs' : extract_struct_info s' with
        | error e' =>
          exact ⟨_, by rw [processItems, hs']⟩
        | ok rs =>
          exact ⟨e, by rw [processItems, hs', he]⟩
      | macDecl m =>
        exact ⟨e, by rw [processItems, he]⟩
      | otherItem =>
        exact ⟨e, by rw [processItems, he]⟩

/-- C4 witness: a run whose second declaration is a tuple struct aborts even
though its first declaration extracts successfully. -/
theorem c4_positional_aborts_run_witness :
    ∃ e, processItems
      [Item.structDecl ⟨"Good", [], RsFields.unit⟩,
       Item.structDecl ⟨"Bad", [], RsFields.unnamed⟩] = Except.error e :=
  c4_positional_aborts_run
    [Item.structDecl ⟨"Good", [], RsFields.unit⟩,
     Item.structDecl ⟨"Bad", [], RsFields.unnamed⟩]
    ⟨⟨"Bad", [], RsFields.unnamed⟩, List.Mem.tail _ (List.Mem.head _), rfl⟩

/-- C9: whenever the trimmed invocation text has no whitespace, or lacks
`(` or `)` (or the first `)` precedes the first `(`), or lacks a `\x7b`
after the `)` or a `\x7d` after that `\x7b`, the Schema-DSL parser yields no
TableRecord, and a run containing only that invocation still succeeds with
empty output (silent skip, no error raised). -/
theorem c9_silent_skip (tokens : Str)
    (h :
      (rustTrim tokens).findIdx? rustIsWhitespace = none ∨
      (rustTrim tokens).findIdx? (fun c => c == '(') = none ∨
      (rustTrim tokens).findIdx? (fun c => c == ')') = none ∨
      (∃ i j, (rustTrim tokens).findIdx? (fun c => c == '(') = some i ∧
              (rustTrim tokens).findIdx? (fun c => c == ')') = some j ∧ j ≤ i) ∨
      (∃ j, (rustTrim tokens).findIdx? (fun c => c == ')') = some j ∧
            ((rustTrim tokens).drop j).findIdx? (fun c => c == '\x7b') = none) ∨
      (∃ j k, (rustTrim tokens).findIdx? (fun c => c == ')') = some j ∧
              ((rustTrim tokens).drop j).findIdx? (fun c => c == '\x7b') = some k ∧
              ((rustTrim tokens).drop (j + k)).findIdx? (fun c => c == '\x7d') = none)) :
    parse_diesel_table_tokens tokens = none ∧
      processItems [Item.macDecl ⟨["table"], tokens⟩] = Except.ok ([], [], []) := by
  have hnone : parse_diesel_table_tokens tokens = none := by
    simp only [parse_diesel_table_tokens]
    cases hws : (rustTrim tokens).findIdx? rustIsWhitespace with
    | none => simp [hws]
    | some w =>
      cases hpo : (rustTrim tokens).findIdx? (fun c => c == '(') with
      | none => simp [hws, hpo]
      | some i =>
        cases hpc : (rustTrim tokens).findIdx? (fun c => c == ')') with
        | none => simp [hws, hpo, hpc]
        | some j =>
          by_cases hle : j ≤ i
          · simp [hws, hpo, hpc, hle]
          · rcases h with h | h | h | h | h | h
            · rw [hws] at h
              exact Option.noConfusion h
            · rw [hpo] at h
              exact Option.noConfusion h
            · rw [hpc] at h
              exact Option.noConfusion h
            · obtain ⟨i', j', hpo', hpc', hji⟩ := h
              rw [hpo] at hpo'
              rw [hpc] at hpc'
              injection hpo' with hi
              injection hpc' with hj
              subst hi
              subst hj
              exact absurd hji hle
            · obtain ⟨j', hpc', hbr⟩ := h
              rw [hpc] at hpc'
              injection hpc' with hj
              subst hj
              simp [hws, hpo, hpc, hle, hbr]
            · obtain ⟨j', k, hpc', hbr1, hbr2⟩ := h
              rw [hpc] at hpc'
              injection hpc' with hj
              subst hj
              simp [hws, hpo, hpc, hle, hbr1, hbr2]
  refine ⟨hnone, ?_⟩
  simp [processItems, extract_diesel_table, hnone]

/-- C9 witness: the invocation text `widgets (id` (missing the closing
parenthesis) is silently skipped. -/
theorem c9_silent_skip_witness :
    parse_diesel_table_tokens (chars "widgets (id") = none ∧
      processItems [Item.macDecl ⟨["table"], chars "widgets (id"⟩] =
        Except.ok ([], [], []) :=
  c9_silent_skip (chars "widgets (id") (Or.inr (Or.inr (Or.inl (by decide))))
